import Mathlib

/-!
Verification development for the packet debug middleware
(`Lead-Client-Source/UserInterface/PacketDebug.h`).

The core of the program is `CPacketDebug::PrintContent`, a heuristic field
disassembler: given an opaque byte buffer and its length it walks the buffer,
classifying regions as variable strings, fixed-size padded strings, floats,
32-bit integers, 16-bit integers or single bytes, in that priority order.

The embedding below models a buffer as a byte function `data : Nat → Nat`
(every read goes through `byteAt`, which truncates to an octet, matching the
`BYTE*` view of the C++ code) together with an explicit length `size`.  All
recursions are structural so that every definition evaluates by kernel
reduction on concrete inputs.  The session state machine (`Initialize`,
`Shutdown`, `LogSend`, `LogRecv`, `Log`) is modeled as explicit state passing
over `DebugState`, with the written output abstracted as a list of `Line`
events.
-/

namespace PacketDebug

/-- Configuration constant `PKT_DBG_MIN_STR_LEN` (minimum chars to detect a string). -/
def PKT_DBG_MIN_STR_LEN : Nat := 3

/-- Configuration constant `PKT_DBG_MAX_FIELDS` (maximum fields displayed per packet). -/
def PKT_DBG_MAX_FIELDS : Nat := 16

/-- Reading one byte of the buffer: the C++ code views the buffer through a
`const BYTE*`, so every read yields an octet. -/
def byteAt (data : Nat → Nat) (i : Nat) : Nat := data i % 256

/-- `CPacketDebug::IsPrintable`: `c >= 32 && c < 127`. -/
def IsPrintable (c : Nat) : Bool := decide (32 ≤ c ∧ c < 127)

/-- The greedy printable run of the variable-string candidate
(`while (pos < size && data[pos] != 0 && IsPrintable(data[pos]) && s.length() < 64) s += data[pos++];`).
The 64-character cap of the C++ loop is encoded by the fuel argument `cap`
(starting at 64; `cap = 64 - s.length()`), which also makes the recursion
structural. -/
def runFrom (data : Nat → Nat) (size : Nat) : Nat → Nat → List Nat
  | _, 0 => []
  | pos, cap + 1 =>
    if pos < size ∧ byteAt data pos ≠ 0 ∧ IsPrintable (byteAt data pos) = true then
      byteAt data pos :: runFrom data size (pos + 1) cap
    else []

/-- The canonical fixed-string sizes probed by `DetectFixedString`
(`static const int sizes[] = {13, 16, 17, 24, 25, 31, 32, 33, 48, 64, 65, 128, 256};`). -/
def fixedSizes : List Nat := [13, 16, 17, 24, 25, 31, 32, 33, 48, 64, 65, 128, 256]

/-- The counting loop inside `DetectFixedString`: over the first `n` bytes at
`base`, count printable bytes and null bytes, stopping (with `valid = false`)
at the first byte that is neither.  The triple is `(printable, nulls, valid)`.
Bytes are processed in index order 0, 1, …; once invalid, the counts freeze,
exactly as the C++ loop `for (int i = 0; i < sz && valid; i++)` does. -/
def fixedScan (data : Nat → Nat) (base : Nat) : Nat → Nat × Nat × Bool
  | 0 => (0, 0, true)
  | n + 1 =>
    match fixedScan data base n with
    | (p, nl, true) =>
      if IsPrintable (byteAt data (base + n)) = true then (p + 1, nl, true)
      else if byteAt data (base + n) = 0 then (p, nl + 1, true)
      else (p, nl, false)
    | r => r

/-- The size-probing loop of `DetectFixedString`: walk the ascending candidate
list; `if (sz > maxLen) break;` then accept the first size whose region is all
printable-or-null, has at least `PKT_DBG_MIN_STR_LEN` printable bytes, at
least one null, and whose printable+null counts exactly cover the region. -/
def detectFixedGo (data : Nat → Nat) (base maxLen : Nat) : List Nat → Nat
  | [] => 0
  | sz :: rest =>
    if maxLen < sz then 0
    else if (fixedScan data base sz).2.2 = true ∧ PKT_DBG_MIN_STR_LEN ≤ (fixedScan data base sz).1 ∧
        0 < (fixedScan data base sz).2.1 ∧
        (fixedScan data base sz).1 + (fixedScan data base sz).2.1 = sz then sz
    else detectFixedGo data base maxLen rest

/-- `CPacketDebug::DetectFixedString(data + base, maxLen)`: returns the first
valid canonical size, or 0 when none matches. -/
def DetectFixedString (data : Nat → Nat) (base maxLen : Nat) : Nat :=
  detectFixedGo data base maxLen fixedSizes

/-- The display-string loop for a committed fixed string
(`for (int i = 0; i < fixedStrLen && data[pos + i] != 0; i++) s += ...`):
the printable run before the first null, limited to `n` bytes. -/
def strBeforeNull (data : Nat → Nat) : Nat → Nat → List Nat
  | _, 0 => []
  | base, n + 1 =>
    if byteAt data base ≠ 0 then byteAt data base :: strBeforeNull data (base + 1) n
    else []

/-- Little-endian 16-bit read `*(WORD*)(data + pos)`. -/
def le16 (data : Nat → Nat) (pos : Nat) : Nat :=
  byteAt data pos + 256 * byteAt data (pos + 1)

/-- Little-endian 32-bit read `*(DWORD*)(data + pos)` (also the bit pattern of
the `*(float*)` read on the little-endian target). -/
def le32 (data : Nat → Nat) (pos : Nat) : Nat :=
  byteAt data pos + 256 * byteAt data (pos + 1) + 65536 * byteAt data (pos + 2) +
    16777216 * byteAt data (pos + 3)

/-- The value of the two bytes reinterpreted as a signed 16-bit integer
(`short sval = *(short*)(data + pos);`). -/
def toSigned16 (u : Nat) : Int :=
  if u < 32768 then (u : Int) else (u : Int) - 65536

/-- The value of the four bytes reinterpreted as a signed 32-bit integer
(`long sval = *(long*)(data + pos);`). -/
def toSigned32 (u : Nat) : Int :=
  if u < 2147483648 then (u : Int) else (u : Int) - 4294967296

/-- `CPacketDebug::IsReasonableDWORD`. -/
def IsReasonableDWORD (u : Nat) : Bool :=
  if u = 0 ∨ u = 4294967295 then false
  else if 4026531840 < u then false
  else true

/-- The exponent field (bits 23–30) of a single-precision bit pattern.

The next few definitions support `IsReasonableFloatBits`, which is
`CPacketDebug::IsReasonableFloat` evaluated exactly on the IEEE-754
single-precision bit pattern `bits` of the four bytes.

The bit fields are sign `s`, exponent `ex` and fraction `frac`.  The C++
checks, in order, are:
* `val != val` — true exactly for NaN (`ex = 255`, `frac ≠ 0`): reject;
* `val > 1e10f || val < -1e10f` — `1e10f` is exactly `10^10` (its mantissa
  `5^10 < 2^24` is representable), and the check also rejects `±infinity`
  (`ex = 255`, `frac = 0`), so together with the NaN case the whole `ex = 255`
  class is rejected;
* `val == 0.0f` — rejects `±0`;
* `absVal >= 0.0001f && absVal <= 100000.0f` — both constants compare exactly;
  `0.0001f` has bit pattern `0x38D1B717`, i.e. the rational `13743895 / 2^37`,
  and `100000.0f` is exactly `100000`.

A finite value has magnitude `m * 2^(e - 150)` with `m = 2^23 + frac`,
`e = ex` for normal numbers and `m = frac`, `e = 1` for subnormals.  All four
magnitude comparisons are evaluated exactly after scaling by `2^150`
(`scaled = m * 2^e`), so e.g. `|val| <= 100000.0f ↔ scaled ≤ 100000 * 2^150`
and `|val| >= 0.0001f ↔ 13743895 * 2^113 ≤ scaled`.  The sign bit only flips
the sign and every surviving check is on the magnitude, so it does not appear. -/
def exOf (bits : Nat) : Nat := bits / 2 ^ 23 % 256

/-- The fraction field (low 23 bits) of a single-precision bit pattern. -/
def fracOf (bits : Nat) : Nat := bits % 2 ^ 23

/-- The sign bit of a single-precision bit pattern. -/
def signOf (bits : Nat) : Nat := bits / 2 ^ 31 % 2

/-- The effective mantissa of a finite single-precision value:
`2^23 + frac` for a normal number, `frac` for a subnormal. -/
def mantOf (bits : Nat) : Nat := if exOf bits = 0 then fracOf bits else 2 ^ 23 + fracOf bits

/-- The effective exponent field of a finite single-precision value
(subnormals share the scale of exponent field 1): the magnitude is
`mantOf * 2 ^ (expEffOf - 150)`. -/
def expEffOf (bits : Nat) : Nat := if exOf bits = 0 then 1 else exOf bits

/-- The magnitude of a finite value, scaled by `2 ^ 150` to an integer. -/
def scaledMag (bits : Nat) : Nat := mantOf bits * 2 ^ expEffOf bits

def IsReasonableFloatBits (bits : Nat) : Bool :=
  if exOf bits = 255 then false
  else if 10000000000 * 2 ^ 150 < scaledMag bits then false
  else if scaledMag bits = 0 then false
  else decide (13743895 * 2 ^ 113 ≤ scaledMag bits ∧ scaledMag bits ≤ 100000 * 2 ^ 150)

/-- The classification of one committed field (the kind label and decoded
value printed on the field's line). -/
inductive FKind where
  | strVar (run : List Nat) (nullConsumed : Bool)
  | strFixed (len : Nat) (s : List Nat)
  | floatF (bits : Nat)
  | longF (v : Int)
  | dwordF (v : Nat)
  | shortF (v : Int)
  | wordF (v : Nat)
  | byteBoolF (v : Nat)
  | byteF (v : Nat)
deriving DecidableEq

/-- One field record: start offset, consumed byte width, classification. -/
structure Field where
  offset : Nat
  width : Nat
  kind : FKind
deriving DecidableEq

/-- The width printed inside the `char[N]` label of a string field: the
variable-string line prints `s.length() + 1`; the fixed-string line prints
`fixedStrLen`.  Non-string kinds carry no such label. -/
def charLabel : FKind → Option Nat
  | FKind.strVar run _ => some (run.length + 1)
  | FKind.strFixed n _ => some n
  | _ => none

/-- The variable (null-terminated) string candidate of `PrintContent`
(lines 127–142): if the current byte is printable, greedily take the printable
run; commit only when the run has at least `PKT_DBG_MIN_STR_LEN` chars and is
followed by end-of-buffer or a null (the null, when present, is consumed too).
`none` models the reject-and-retry path `pos = strStart`. -/
def tryVarString (data : Nat → Nat) (size pos : Nat) : Option Field :=
  if IsPrintable (byteAt data pos) = true then
    let s := runFrom data size pos 64
    let pos2 := pos + s.length
    if PKT_DBG_MIN_STR_LEN ≤ s.length ∧ (size ≤ pos2 ∨ byteAt data pos2 = 0) then
      if pos2 < size ∧ byteAt data pos2 = 0 then
        some ⟨pos, s.length + 1, FKind.strVar s true⟩
      else
        some ⟨pos, s.length, FKind.strVar s false⟩
    else none
  else none

/-- The fixed-size padded string candidate of `PrintContent` (lines 144–155):
commit `DetectFixedString(data + pos, size - pos)` bytes when it is positive. -/
def tryFixedString (data : Nat → Nat) (size pos : Nat) : Option Field :=
  let fl := DetectFixedString data pos (size - pos)
  if 0 < fl then some ⟨pos, fl, FKind.strFixed fl (strBeforeNull data pos fl)⟩
  else none

/-- The float candidate of `PrintContent` (lines 157–168): requires 4
remaining bytes and `IsReasonableFloat` on the reinterpreted bit pattern. -/
def tryFloat (data : Nat → Nat) (size pos : Nat) : Option Field :=
  if pos + 4 ≤ size ∧ IsReasonableFloatBits (le32 data pos) = true then
    some ⟨pos, 4, FKind.floatF (le32 data pos)⟩
  else none

/-- The 32-bit candidate of `PrintContent` (lines 170–191): a negative signed
value in `(-100000000, 0)` commits as `long`; otherwise a reasonable DWORD
commits as unsigned. -/
def tryLong (data : Nat → Nat) (size pos : Nat) : Option Field :=
  if pos + 4 ≤ size then
    if toSigned32 (le32 data pos) < 0 ∧ -100000000 < toSigned32 (le32 data pos) then
      some ⟨pos, 4, FKind.longF (toSigned32 (le32 data pos))⟩
    else if IsReasonableDWORD (le32 data pos) = true then
      some ⟨pos, 4, FKind.dwordF (le32 data pos)⟩
    else none
  else none

/-- The 16-bit candidate of `PrintContent` (lines 193–214): a negative signed
value with `sval > -32000` commits as `short`; otherwise an unsigned value in
`(0, 0xFFF0)` commits as `WORD`. -/
def tryShort (data : Nat → Nat) (size pos : Nat) : Option Field :=
  if pos + 2 ≤ size then
    if toSigned16 (le16 data pos) < 0 ∧ -32000 < toSigned16 (le16 data pos) then
      some ⟨pos, 2, FKind.shortF (toSigned16 (le16 data pos))⟩
    else if 0 < le16 data pos ∧ le16 data pos < 65520 then
      some ⟨pos, 2, FKind.wordF (le16 data pos)⟩
    else none
  else none

/-- One iteration of the classification loop of `PrintContent` at offset
`pos < size`: try each candidate in the source's priority order and commit the
first match; the single-byte fallback (lines 216–223) always matches. -/
def classifyAt (data : Nat → Nat) (size pos : Nat) : Field :=
  match tryVarString data size pos with
  | some f => f
  | none =>
    match tryFixedString data size pos with
    | some f => f
    | none =>
      match tryFloat data size pos with
      | some f => f
      | none =>
        match tryLong data size pos with
        | some f => f
        | none =>
          match tryShort data size pos with
          | some f => f
          | none =>
            let v := byteAt data pos
            if v = 0 ∨ v = 1 then ⟨pos, 1, FKind.byteBoolF v⟩
            else ⟨pos, 1, FKind.byteF v⟩

/-- The classification loop `while (pos < size && fieldCount < PKT_DBG_MAX_FIELDS)`
of `PrintContent`.  The remaining field budget `budget = PKT_DBG_MAX_FIELDS -
fieldCount` is the structural recursion argument (`budget = 0` is exactly
`fieldCount = PKT_DBG_MAX_FIELDS`).  Returns the committed field records and
the offset at which the loop stopped. -/
def scanFields (data : Nat → Nat) (size : Nat) : Nat → Nat → List Field × Nat
  | 0, pos => ([], pos)
  | budget + 1, pos =>
    if pos < size then
      let f := classifyAt data size pos
      let r := scanFields data size budget (pos + f.width)
      (f :: r.1, r.2)
    else ([], pos)

/-- The computed scan-start offset of `PrintContent` (lines 115–118):
`pos = 1` (skip the header byte), bumped to 3 by the dynamic-length heuristic
`if (size >= 3 && *(WORD*)(data + 1) == size) pos = 3;`. -/
def startPos (data : Nat → Nat) (size : Nat) : Nat :=
  if 3 ≤ size ∧ le16 data 1 = size then 3 else 1

/-- The content rendered by `PrintContent`: the `(empty)` marker, the
`(header only)` marker, or the field records together with the optional
trailing `... +N more bytes` count. -/
inductive Content where
  | empty
  | headerOnly
  | fields (fs : List Field) (more : Option Nat)
deriving DecidableEq

/-- `CPacketDebug::PrintContent(data, size)`. -/
def PrintContent (data : Nat → Nat) (size : Nat) : Content :=
  if size ≤ 1 then Content.empty
  else if size ≤ startPos data size then Content.headerOnly
  else
    let r := scanFields data size PKT_DBG_MAX_FIELDS (startPos data size)
    Content.fields r.1 (if r.2 < size then some (size - r.2) else none)

/-- The offset at which a contiguous run of field records ends when it starts
at `p` (start offset plus the sum of the consumed widths). -/
def fieldsEnd : Nat → List Field → Nat
  | p, [] => p
  | p, f :: r => fieldsEnd (p + f.width) r

/-- Contiguity check for a run of field records starting at offset `p`: each
record starts exactly where the previous one ended and consumes at least one
byte (hence offsets are strictly increasing). -/
def fieldsChain : Nat → List Field → Bool
  | _, [] => true
  | p, f :: r => decide (f.offset = p) && decide (1 ≤ f.width) && fieldsChain (p + f.width) r

/-- Exact semantics of an IEEE-754 single-precision bit pattern: NaN,
a signed infinity, or a finite value as an exact rational. -/
inductive F32 where
  | nan
  | inf (neg : Bool)
  | val (q : ℚ)
deriving DecidableEq

/-- Decoding a 32-bit pattern as an IEEE-754 single-precision number
(the `*(float*)(data + pos)` reinterpretation). -/
def decodeF32 (bits : Nat) : F32 :=
  if exOf bits = 255 then
    if fracOf bits = 0 then F32.inf (signOf bits = 1) else F32.nan
  else
    F32.val (if signOf bits = 1
      then -((mantOf bits : ℚ) * (2 : ℚ) ^ ((expEffOf bits : ℤ) - 150))
      else (mantOf bits : ℚ) * (2 : ℚ) ^ ((expEffOf bits : ℤ) - 150))

/-- The exact rational value of the single-precision literal `0.0001f`
(bit pattern `0x38D1B717`), the lower plausibility bound of
`IsReasonableFloat`. -/
def floatLit00001 : ℚ := 13743895 / 2 ^ 37

/-- Modelled from the spec: the float acceptance condition as the spec words
it — "not NaN, magnitude ≤ 1e10, magnitude ≠ 0, and magnitude within
[0.0001, 100000.0]" — where the numeric bounds are the exact values of the
float constants of the code (`1e10f = 10^10`, `0.0001f = 13743895/2^37`,
`100000.0f = 100000`).  An infinity has magnitude above `1e10`, so it fails
the second condition. -/
def floatSpecOK : F32 → Prop
  | F32.nan => False
  | F32.inf _ => False
  | F32.val q => |q| ≤ 10000000000 ∧ q ≠ 0 ∧ floatLit00001 ≤ |q| ∧ |q| ≤ 100000

/-- The session/logger state of `CPacketDebug`: `m_bInit`, `m_pFile` (abstracted
to whether the sink is open), `m_dwLastTime`, `m_nSend`, `m_nRecv`. -/
structure DebugState where
  init : Bool
  fileOpen : Bool
  lastTime : Nat
  nSend : Nat
  nRecv : Nat
deriving DecidableEq

/-- The state of a fresh `CPacketDebug` (its constructor). -/
def initialState : DebugState := ⟨false, false, 0, 0, 0⟩

/-- One line-level event written to the sink.  Formatting is abstracted: a
record header carries the direction tag, the running packet counter, the
elapsed delta, the header byte and the size; the disassembled content is one
`Content` event; the footer carries the totals it prints. -/
inductive Line where
  | sessionHeader
  | recordHeader (dir : String) (counter dt header : Nat) (size : Int)
  | contentOut (c : Content)
  | footer (nSend nRecv : Nat)
deriving DecidableEq

/-- The `DWORD` tick delta `now - m_dwLastTime` with 32-bit wraparound. -/
def dtOf (now last : Nat) : Nat := (2 ^ 32 + now - last % 2 ^ 32) % 2 ^ 32

/-- `CPacketDebug::Initialize`: a no-op when already initialized; a silent
no-op when opening the sink fails (`openOk = false`); otherwise opens the
sink, resets the time reference to `now`, sets the flag and writes the session
header.  The counters are not touched. -/
def SessionInit (st : DebugState) (openOk : Bool) (now : Nat) : DebugState × List Line :=
  if st.init = true then (st, [])
  else if openOk = false then (st, [])
  else ({ st with fileOpen := true, lastTime := now, init := true }, [Line.sessionHeader])

/-- `CPacketDebug::Shutdown`: a no-op when not initialized; otherwise writes
the footer with the current totals, closes the sink and clears the flag.  The
counters are not touched. -/
def Shutdown (st : DebugState) : DebugState × List Line :=
  if st.init = false then (st, [])
  else ({ st with init := false, fileOpen := false }, [Line.footer st.nSend st.nRecv])

/-- `CPacketDebug::Log(dir, data, size)`: returns unchanged on a null buffer,
`size < 1`, or a closed sink; otherwise updates the time reference and writes
the record header followed by the disassembled content. -/
def Log (st : DebugState) (dir : String) (dataNull : Bool) (data : Nat → Nat)
    (size : Int) (now : Nat) : DebugState × List Line :=
  if dataNull = true ∨ size < 1 ∨ st.fileOpen = false then (st, [])
  else
    ({ st with lastTime := now },
     [Line.recordHeader dir (st.nSend + st.nRecv) (dtOf now st.lastTime) (byteAt data 0) size,
      Line.contentOut (PrintContent data size.toNat)])

/-- `CPacketDebug::LogSend`: `if (m_bInit) { m_nSend++; Log("SEND", data, size); }` —
note that the counter is incremented before `Log`'s argument checks run. -/
def LogSend (st : DebugState) (dataNull : Bool) (data : Nat → Nat)
    (size : Int) (now : Nat) : DebugState × List Line :=
  if st.init = true then Log { st with nSend := st.nSend + 1 } "SEND" dataNull data size now
  else (st, [])

/-- `CPacketDebug::LogRecv`: `if (m_bInit) { m_nRecv++; Log("RECV", data, size); }`. -/
def LogRecv (st : DebugState) (dataNull : Bool) (data : Nat → Nat)
    (size : Int) (now : Nat) : DebugState × List Line :=
  if st.init = true then Log { st with nRecv := st.nRecv + 1 } "RECV" dataNull data size now
  else (st, [])

end PacketDebug

namespace PacketDebug

/-! ### Bounds of the classification step -/

theorem runFrom_length_le (data : Nat → Nat) (size : Nat) :
    ∀ cap pos, pos ≤ size → pos + (runFrom data size pos cap).length ≤ size := by
  intro cap
  induction cap with
  | zero => intro pos h; simpa [runFrom] using h
  | succ cap ih =>
    intro pos h
    rw [runFrom]
    split_ifs with hc
    · have := ih (pos + 1) (by omega)
      simp only [List.length_cons]
      omega
    · simpa using h

theorem detectFixedGo_le (data : Nat → Nat) (base maxLen : Nat) :
    ∀ l, detectFixedGo data base maxLen l ≤ maxLen := by
  intro l
  induction l with
  | nil => simp [detectFixedGo]
  | cons sz rest ih =>
    simp only [detectFixedGo]
    split_ifs with h1 h2
    · omega
    · omega
    · exact ih

theorem DetectFixedString_le (data : Nat → Nat) (base maxLen : Nat) :
    DetectFixedString data base maxLen ≤ maxLen :=
  detectFixedGo_le data base maxLen fixedSizes

theorem tryVarString_bounds (data : Nat → Nat) (size pos : Nat) (f : Field)
    (hp : pos ≤ size) (h : tryVarString data size pos = some f) :
    f.offset = pos ∧ 1 ≤ f.width ∧ pos + f.width ≤ size := by
  simp only [tryVarString, PKT_DBG_MIN_STR_LEN] at h
  split_ifs at h with h1 h2 h3
  · cases h
    have := h3.1
    refine ⟨rfl, by simp, ?_⟩
    simp only
    omega
  · cases h
    have hr := runFrom_length_le data size 64 pos hp
    have := h2.1
    refine ⟨rfl, by simp; omega, by simp; omega⟩

theorem tryFixedString_bounds (data : Nat → Nat) (size pos : Nat) (f : Field)
    (hp : pos ≤ size) (h : tryFixedString data size pos = some f) :
    f.offset = pos ∧ 1 ≤ f.width ∧ pos + f.width ≤ size := by
  simp only [tryFixedString] at h
  split_ifs at h with h1
  · cases h
    have := DetectFixedString_le data pos (size - pos)
    refine ⟨rfl, by simpa using h1, by simp; omega⟩

theorem tryFloat_bounds (data : Nat → Nat) (size pos : Nat) (f : Field)
    (h : tryFloat data size pos = some f) :
    f.offset = pos ∧ 1 ≤ f.width ∧ pos + f.width ≤ size := by
  simp only [tryFloat] at h
  split_ifs at h with h1
  · cases h
    exact ⟨rfl, by simp, by simp; omega⟩

theorem tryLong_bounds (data : Nat → Nat) (size pos : Nat) (f : Field)
    (h : tryLong data size pos = some f) :
    f.offset = pos ∧ 1 ≤ f.width ∧ pos + f.width ≤ size := by
  simp only [tryLong] at h
  split_ifs at h with h1 h2 h3
  · cases h; exact ⟨rfl, by simp, by simp; omega⟩
  · cases h; exact ⟨rfl, by simp, by simp; omega⟩

theorem tryShort_bounds (data : Nat → Nat) (size pos : Nat) (f : Field)
    (h : tryShort data size pos = some f) :
    f.offset = pos ∧ 1 ≤ f.width ∧ pos + f.width ≤ size := by
  simp only [tryShort] at h
  split_ifs at h with h1 h2 h3
  · cases h; exact ⟨rfl, by simp, by simp; omega⟩
  · cases h; exact ⟨rfl, by simp, by simp; omega⟩

theorem classifyAt_bounds (data : Nat → Nat) (size pos : Nat) (h : pos < size) :
    (classifyAt data size pos).offset = pos ∧ 1 ≤ (classifyAt data size pos).width ∧
      pos + (classifyAt data size pos).width ≤ size := by
  unfold classifyAt
  cases hv : tryVarString data size pos with
  | some f => simpa using tryVarString_bounds data size pos f (le_of_lt h) hv
  | none =>
    cases hx : tryFixedString data size pos with
    | some f => simpa using tryFixedString_bounds data size pos f (le_of_lt h) hx
    | none =>
      cases hf : tryFloat data size pos with
      | some f => simpa using tryFloat_bounds data size pos f hf
      | none =>
        cases hl : tryLong data size pos with
        | some f => simpa using tryLong_bounds data size pos f hl
        | none =>
          cases hs : tryShort data size pos with
          | some f => simpa using tryShort_bounds data size pos f hs
          | none =>
            simp only
            split_ifs <;> exact ⟨rfl, by simp, by simp; omega⟩

theorem scanFields_spec (data : Nat → Nat) (size : Nat) :
    ∀ budget pos, pos ≤ size →
      fieldsChain pos (scanFields data size budget pos).1 = true ∧
      (scanFields data size budget pos).2 = fieldsEnd pos (scanFields data size budget pos).1 ∧
      (scanFields data size budget pos).2 ≤ size ∧
      (scanFields data size budget pos).1.length ≤ budget := by
  intro budget
  induction budget with
  | zero => intro pos h; simp [scanFields, fieldsChain, fieldsEnd, h]
  | succ b ih =>
    intro pos h
    rw [scanFields]
    by_cases hps : pos < size
    · simp only [if_pos hps]
      obtain ⟨hoff, hw1, hwle⟩ := classifyAt_bounds data size pos hps
      obtain ⟨ih1, ih2, ih3, ih4⟩ := ih (pos + (classifyAt data size pos).width) hwle
      refine ⟨?_, ?_, ih3, by simpa using ih4⟩
      · simp [fieldsChain, hoff, hw1, ih1]
      · simp [fieldsEnd, hoff, ih2]
    · simp [if_neg hps, fieldsChain, fieldsEnd, h]

end PacketDebug

namespace PacketDebug

/-! ### Locality: the disassembler depends only on bytes at indices in `[1, size)`

Every read of `PrintContent` and of its classification helpers is guarded by
the supplied length, so two buffers that agree (as octets) on the indices
`1 ≤ i < size` disassemble identically.  In particular no classification step
reads a byte at an index `≥ size`. -/

theorem runFrom_congr (d1 d2 : Nat → Nat) (size : Nat) :
    ∀ cap pos, (∀ i, pos ≤ i → i < size → byteAt d1 i = byteAt d2 i) →
      runFrom d1 size pos cap = runFrom d2 size pos cap := by
  intro cap
  induction cap with
  | zero => intro pos _; simp [runFrom]
  | succ cap ih =>
    intro pos hag
    by_cases hps : pos < size
    · have hb : byteAt d1 pos = byteAt d2 pos := hag pos le_rfl hps
      have hrec : runFrom d1 size (pos + 1) cap = runFrom d2 size (pos + 1) cap :=
        ih (pos + 1) (fun i hi hs => hag i (by omega) hs)
      rw [runFrom, runFrom, hb, hrec]
    · rw [runFrom, runFrom]
      simp [hps]

theorem fixedScan_congr (d1 d2 : Nat → Nat) (base : Nat) :
    ∀ n, (∀ i, i < n → byteAt d1 (base + i) = byteAt d2 (base + i)) →
      fixedScan d1 base n = fixedScan d2 base n := by
  intro n
  induction n with
  | zero => intro _; simp [fixedScan]
  | succ n ih =>
    intro hag
    have hb : byteAt d1 (base + n) = byteAt d2 (base + n) := hag n (by omega)
    have hrec : fixedScan d1 base n = fixedScan d2 base n :=
      ih (fun i hi => hag i (by omega))
    simp only [fixedScan, hrec, hb]

theorem detectFixedGo_congr (d1 d2 : Nat → Nat) (base maxLen : Nat) :
    ∀ l, (∀ i, i < maxLen → byteAt d1 (base + i) = byteAt d2 (base + i)) →
      detectFixedGo d1 base maxLen l = detectFixedGo d2 base maxLen l := by
  intro l
  induction l with
  | nil => intro _; simp [detectFixedGo]
  | cons sz rest ih =>
    intro hag
    by_cases h1 : maxLen < sz
    · simp [detectFixedGo, h1]
    · have hscan : fixedScan d1 base sz = fixedScan d2 base sz :=
        fixedScan_congr d1 d2 base sz (fun i hi => hag i (by omega))
      simp only [detectFixedGo, if_neg h1, hscan, ih hag]

theorem DetectFixedString_congr (d1 d2 : Nat → Nat) (base maxLen : Nat)
    (hag : ∀ i, i < maxLen → byteAt d1 (base + i) = byteAt d2 (base + i)) :
    DetectFixedString d1 base maxLen = DetectFixedString d2 base maxLen :=
  detectFixedGo_congr d1 d2 base maxLen fixedSizes hag

theorem strBeforeNull_congr (d1 d2 : Nat → Nat) :
    ∀ n base, (∀ i, i < n → byteAt d1 (base + i) = byteAt d2 (base + i)) →
      strBeforeNull d1 base n = strBeforeNull d2 base n := by
  intro n
  induction n with
  | zero => intro base _; simp [strBeforeNull]
  | succ n ih =>
    intro base hag
    have hb : byteAt d1 base = byteAt d2 base := by
      have := hag 0 (by omega)
      simpa using this
    have hrec : strBeforeNull d1 (base + 1) n = strBeforeNull d2 (base + 1) n :=
      ih (base + 1) (fun i hi => by
        have := hag (i + 1) (by omega)
        simpa [Nat.add_assoc, Nat.add_comm 1 i] using this)
    rw [strBeforeNull, strBeforeNull, hb, hrec]

theorem tryVarString_congr (d1 d2 : Nat → Nat) (size pos : Nat) (hps : pos < size)
    (hag : ∀ i, pos ≤ i → i < size → byteAt d1 i = byteAt d2 i) :
    tryVarString d1 size pos = tryVarString d2 size pos := by
  have hb : byteAt d1 pos = byteAt d2 pos := hag pos le_rfl hps
  have hrun : runFrom d1 size pos 64 = runFrom d2 size pos 64 :=
    runFrom_congr d1 d2 size 64 pos hag
  by_cases hp2 : pos + (runFrom d2 size pos 64).length < size
  · have hb2 : byteAt d1 (pos + (runFrom d2 size pos 64).length) =
        byteAt d2 (pos + (runFrom d2 size pos 64).length) :=
      hag _ (by omega) hp2
    simp only [tryVarString, hb, hrun, hb2]
  · have hge : size ≤ pos + (runFrom d2 size pos 64).length := by omega
    simp only [tryVarString, hb, hrun]
    simp [hge, hp2]

theorem tryFixedString_congr (d1 d2 : Nat → Nat) (size pos : Nat) (hp : pos ≤ size)
    (hag : ∀ i, pos ≤ i → i < size → byteAt d1 i = byteAt d2 i) :
    tryFixedString d1 size pos = tryFixedString d2 size pos := by
  have hag2 : ∀ i, i < size - pos → byteAt d1 (pos + i) = byteAt d2 (pos + i) :=
    fun i hi => hag (pos + i) (by omega) (by omega)
  have hdet : DetectFixedString d1 pos (size - pos) = DetectFixedString d2 pos (size - pos) :=
    DetectFixedString_congr d1 d2 pos (size - pos) hag2
  have hle := DetectFixedString_le d2 pos (size - pos)
  have hstr : strBeforeNull d1 pos (DetectFixedString d2 pos (size - pos)) =
      strBeforeNull d2 pos (DetectFixedString d2 pos (size - pos)) :=
    strBeforeNull_congr d1 d2 _ pos (fun i hi => hag2 i (by omega))
  simp only [tryFixedString, hdet, hstr]

theorem tryFloat_congr (d1 d2 : Nat → Nat) (size pos : Nat)
    (hag : ∀ i, pos ≤ i → i < size → byteAt d1 i = byteAt d2 i) :
    tryFloat d1 size pos = tryFloat d2 size pos := by
  by_cases h4 : pos + 4 ≤ size
  · have h32 : le32 d1 pos = le32 d2 pos := by
      unfold le32
      rw [hag pos le_rfl (by omega), hag (pos + 1) (by omega) (by omega),
        hag (pos + 2) (by omega) (by omega), hag (pos + 3) (by omega) (by omega)]
    simp only [tryFloat, h32]
  · simp [tryFloat, h4]

theorem tryLong_congr (d1 d2 : Nat → Nat) (size pos : Nat)
    (hag : ∀ i, pos ≤ i → i < size → byteAt d1 i = byteAt d2 i) :
    tryLong d1 size pos = tryLong d2 size pos := by
  by_cases h4 : pos + 4 ≤ size
  · have h32 : le32 d1 pos = le32 d2 pos := by
      unfold le32
      rw [hag pos le_rfl (by omega), hag (pos + 1) (by omega) (by omega),
        hag (pos + 2) (by omega) (by omega), hag (pos + 3) (by omega) (by omega)]
    simp only [tryLong, h32]
  · simp [tryLong, h4]

theorem tryShort_congr (d1 d2 : Nat → Nat) (size pos : Nat)
    (hag : ∀ i, pos ≤ i → i < size → byteAt d1 i = byteAt d2 i) :
    tryShort d1 size pos = tryShort d2 size pos := by
  by_cases h2 : pos + 2 ≤ size
  · have h16 : le16 d1 pos = le16 d2 pos := by
      unfold le16
      rw [hag pos le_rfl (by omega), hag (pos + 1) (by omega) (by omega)]
    simp only [tryShort, h16]
  · simp [tryShort, h2]

theorem classifyAt_congr (d1 d2 : Nat → Nat) (size pos : Nat) (hps : pos < size)
    (hag : ∀ i, pos ≤ i → i < size → byteAt d1 i = byteAt d2 i) :
    classifyAt d1 size pos = classifyAt d2 size pos := by
  have hb : byteAt d1 pos = byteAt d2 pos := hag pos le_rfl hps
  simp only [classifyAt, tryVarString_congr d1 d2 size pos hps hag,
    tryFixedString_congr d1 d2 size pos (le_of_lt hps) hag,
    tryFloat_congr d1 d2 size pos hag, tryLong_congr d1 d2 size pos hag,
    tryShort_congr d1 d2 size pos hag, hb]

theorem scanFields_congr (d1 d2 : Nat → Nat) (size : Nat) :
    ∀ budget pos, (∀ i, pos ≤ i → i < size → byteAt d1 i = byteAt d2 i) →
      scanFields d1 size budget pos = scanFields d2 size budget pos := by
  intro budget
  induction budget with
  | zero => intro pos _; simp [scanFields]
  | succ b ih =>
    intro pos hag
    by_cases hps : pos < size
    · have hcl : classifyAt d1 size pos = classifyAt d2 size pos :=
        classifyAt_congr d1 d2 size pos hps hag
      have hrec : scanFields d1 size b (pos + (classifyAt d2 size pos).width) =
          scanFields d2 size b (pos + (classifyAt d2 size pos).width) :=
        ih _ (fun i hi hs => hag i (by omega) hs)
      rw [scanFields, scanFields]
      simp only [if_pos hps, hcl, hrec]
    · rw [scanFields, scanFields]
      simp [hps]

theorem startPos_pos (data : Nat → Nat) (size : Nat) : 1 ≤ startPos data size := by
  unfold startPos
  split_ifs <;> omega

theorem startPos_congr (d1 d2 : Nat → Nat) (size : Nat)
    (hag : ∀ i, 1 ≤ i → i < size → byteAt d1 i = byteAt d2 i) :
    startPos d1 size = startPos d2 size := by
  by_cases h3 : 3 ≤ size
  · have e1 : byteAt d1 1 = byteAt d2 1 := hag 1 (by omega) (by omega)
    have e2 : byteAt d1 2 = byteAt d2 2 := hag 2 (by omega) (by omega)
    simp only [startPos, le16, e1, e2]
  · have hne : ∀ d : Nat → Nat, ¬(3 ≤ size ∧ le16 d 1 = size) := fun d hc => h3 hc.1
    simp only [startPos, if_neg (hne d1), if_neg (hne d2)]

theorem PrintContent_congr (d1 d2 : Nat → Nat) (size : Nat)
    (hag : ∀ i, 1 ≤ i → i < size → byteAt d1 i = byteAt d2 i) :
    PrintContent d1 size = PrintContent d2 size := by
  by_cases h1 : size ≤ 1
  · simp [PrintContent, h1]
  · have hsp : startPos d1 size = startPos d2 size := startPos_congr d1 d2 size hag
    have hscan : scanFields d1 size PKT_DBG_MAX_FIELDS (startPos d2 size) =
        scanFields d2 size PKT_DBG_MAX_FIELDS (startPos d2 size) :=
      scanFields_congr d1 d2 size PKT_DBG_MAX_FIELDS (startPos d2 size)
        (fun i hi hs => hag i (le_trans (startPos_pos d2 size) hi) hs)
    simp only [PrintContent, hsp, hscan]

end PacketDebug

namespace PacketDebug

/-! ### The IEEE-754 bridge: bit-level acceptance equals the exact-value predicate -/

theorem mag_eq_div (m e : Nat) :
    (m : ℚ) * (2 : ℚ) ^ ((e : ℤ) - 150) = ((m * 2 ^ e : Nat) : ℚ) / 2 ^ 150 := by
  rw [zpow_sub₀ (by norm_num : (2 : ℚ) ≠ 0), zpow_natCast]
  push_cast
  ring

theorem mag_le_iff (m e c : Nat) :
    (m : ℚ) * (2 : ℚ) ^ ((e : ℤ) - 150) ≤ (c : ℚ) ↔ m * 2 ^ e ≤ c * 2 ^ 150 := by
  rw [mag_eq_div, div_le_iff₀ (by positivity : (0 : ℚ) < 2 ^ 150),
    show ((c : ℚ) * 2 ^ 150) = ((c * 2 ^ 150 : Nat) : ℚ) by push_cast; ring]
  exact Nat.cast_le

theorem lit_le_mag_iff (m e : Nat) :
    floatLit00001 ≤ (m : ℚ) * (2 : ℚ) ^ ((e : ℤ) - 150) ↔
      13743895 * 2 ^ 113 ≤ m * 2 ^ e := by
  rw [mag_eq_div, floatLit00001,
    div_le_div_iff₀ (by positivity : (0 : ℚ) < 2 ^ 37) (by positivity : (0 : ℚ) < 2 ^ 150),
    show ((13743895 : ℚ) * 2 ^ 150) = ((13743895 * 2 ^ 113 : Nat) : ℚ) * 2 ^ 37 by push_cast; ring]
  constructor
  · intro h
    exact_mod_cast le_of_mul_le_mul_right h (by positivity : (0 : ℚ) < 2 ^ 37)
  · intro h
    exact mul_le_mul_of_nonneg_right (by exact_mod_cast h) (by positivity)

theorem mag_ne_zero_iff (m e : Nat) :
    (m : ℚ) * (2 : ℚ) ^ ((e : ℤ) - 150) ≠ 0 ↔ ¬ m * 2 ^ e = 0 := by
  rw [mag_eq_div]
  constructor
  · intro h hz
    exact h (by rw [hz]; simp)
  · intro h hz
    have : ((m * 2 ^ e : Nat) : ℚ) = 0 := by
      field_simp at hz
      exact_mod_cast hz
    exact h (by exact_mod_cast this)

theorem reasonable_aux (m e : Nat) :
    (if 10000000000 * 2 ^ 150 < m * 2 ^ e then false
     else if m * 2 ^ e = 0 then false
     else decide (13743895 * 2 ^ 113 ≤ m * 2 ^ e ∧ m * 2 ^ e ≤ 100000 * 2 ^ 150)) = true
    ↔ ((m : ℚ) * (2 : ℚ) ^ ((e : ℤ) - 150) ≤ 10000000000 ∧
       (m : ℚ) * (2 : ℚ) ^ ((e : ℤ) - 150) ≠ 0 ∧
       floatLit00001 ≤ (m : ℚ) * (2 : ℚ) ^ ((e : ℤ) - 150) ∧
       (m : ℚ) * (2 : ℚ) ^ ((e : ℤ) - 150) ≤ 100000) := by
  have h1 : (m : ℚ) * (2 : ℚ) ^ ((e : ℤ) - 150) ≤ 10000000000 ↔
      m * 2 ^ e ≤ 10000000000 * 2 ^ 150 := by
    have := mag_le_iff m e 10000000000
    simpa using this
  have h4 : (m : ℚ) * (2 : ℚ) ^ ((e : ℤ) - 150) ≤ 100000 ↔
      m * 2 ^ e ≤ 100000 * 2 ^ 150 := by
    have := mag_le_iff m e 100000
    simpa using this
  rw [h1, h4, mag_ne_zero_iff, lit_le_mag_iff]
  split_ifs with hbig hzero
  · simp only [Bool.false_eq_true, false_iff]
    intro hc
    omega
  · simp only [Bool.false_eq_true, false_iff]
    intro hc
    omega
  · rw [decide_eq_true_iff]
    constructor
    · intro hc
      exact ⟨by omega, by omega, hc.1, hc.2⟩
    · intro hc
      exact ⟨hc.2.2.1, hc.2.2.2⟩

theorem IsReasonableFloatBits_iff (bits : Nat) :
    IsReasonableFloatBits bits = true ↔ floatSpecOK (decodeF32 bits) := by
  by_cases hex : exOf bits = 255
  · by_cases hfr : fracOf bits = 0 <;>
      simp [IsReasonableFloatBits, decodeF32, hex, hfr, floatSpecOK]
  · rw [show IsReasonableFloatBits bits =
        (if 10000000000 * 2 ^ 150 < scaledMag bits then false
         else if scaledMag bits = 0 then false
         else decide (13743895 * 2 ^ 113 ≤ scaledMag bits ∧
           scaledMag bits ≤ 100000 * 2 ^ 150)) by
      simp [IsReasonableFloatBits, hex]]
    rw [show decodeF32 bits = F32.val (if signOf bits = 1
        then -((mantOf bits : ℚ) * (2 : ℚ) ^ ((expEffOf bits : ℤ) - 150))
        else (mantOf bits : ℚ) * (2 : ℚ) ^ ((expEffOf bits : ℤ) - 150)) by
      simp [decodeF32, hex]]
    have hmagn : (0 : ℚ) ≤ (mantOf bits : ℚ) * (2 : ℚ) ^ ((expEffOf bits : ℤ) - 150) := by
      positivity
    have habs : |if signOf bits = 1
        then -((mantOf bits : ℚ) * (2 : ℚ) ^ ((expEffOf bits : ℤ) - 150))
        else (mantOf bits : ℚ) * (2 : ℚ) ^ ((expEffOf bits : ℤ) - 150)| =
        (mantOf bits : ℚ) * (2 : ℚ) ^ ((expEffOf bits : ℤ) - 150) := by
      split_ifs
      · rw [abs_neg, abs_of_nonneg hmagn]
      · rw [abs_of_nonneg hmagn]
    have hne0 : ((if signOf bits = 1
        then -((mantOf bits : ℚ) * (2 : ℚ) ^ ((expEffOf bits : ℤ) - 150))
        else (mantOf bits : ℚ) * (2 : ℚ) ^ ((expEffOf bits : ℤ) - 150)) ≠ 0) ↔
        (mantOf bits : ℚ) * (2 : ℚ) ^ ((expEffOf bits : ℤ) - 150) ≠ 0 := by
      split_ifs <;> simp
    simp only [floatSpecOK, habs, hne0]
    have := reasonable_aux (mantOf bits) (expEffOf bits)
    rw [scaledMag] at *
    exact this

end PacketDebug

namespace PacketDebug

/-! ### Kinds produced by the integer candidates -/

theorem tryLong_kind (data : Nat → Nat) (size pos : Nat) (f : Field)
    (h : tryLong data size pos = some f) : ∀ b, f.kind ≠ FKind.floatF b := by
  simp only [tryLong] at h
  split_ifs at h <;> (cases h; intro b; simp)

theorem tryShort_kind (data : Nat → Nat) (size pos : Nat) (f : Field)
    (h : tryShort data size pos = some f) : ∀ b, f.kind ≠ FKind.floatF b := by
  simp only [tryShort] at h
  split_ifs at h <;> (cases h; intro b; simp)

/-! ### The claims -/

/-- C1: for every buffer, the field records committed by the disassembler are
contiguous and strictly increasing in offset (`fieldsChain`), each record's
`[offset, offset + width)` lies within `[start, size)` where `start` is the
computed scan-start offset (`fieldsChain` together with
`fieldsEnd ≤ size`), and no classification step reads a byte at an index
`≥ size`: the rendered records are unchanged under any change to the bytes at
indices `≥ size`. -/
theorem c1_field_records_invariant (data : Nat → Nat) (size : Nat) (fs : List Field)
    (more : Option Nat) (h : PrintContent data size = Content.fields fs more) :
    fieldsChain (startPos data size) fs = true ∧
    fieldsEnd (startPos data size) fs ≤ size ∧
    ∀ d2, (∀ i, i < size → byteAt data i = byteAt d2 i) →
      PrintContent d2 size = Content.fields fs more := by
  have h0 := h
  by_cases h1 : size ≤ 1
  · rw [PrintContent, if_pos h1] at h
    exact absurd h (by simp)
  · by_cases h2 : size ≤ startPos data size
    · rw [PrintContent, if_neg h1, if_pos h2] at h
      exact absurd h (by simp)
    · simp only [PrintContent, if_neg h1, if_neg h2, Content.fields.injEq] at h
      obtain ⟨hfs, hmore⟩ := h
      subst hfs
      have hsp : startPos data size ≤ size := le_of_lt (lt_of_not_le h2)
      obtain ⟨hch, hend, hle, _⟩ :=
        scanFields_spec data size PKT_DBG_MAX_FIELDS (startPos data size) hsp
      refine ⟨hch, ?_, ?_⟩
      · rw [← hend]
        exact hle
      · intro d2 hag
        have hcg := PrintContent_congr data d2 size (fun i hi1 hi2 => hag i hi2)
        rw [← hcg]
        exact h0

/-- C2: the disassembler produces at most `PKT_DBG_MAX_FIELDS` field records,
and the trailing "+N more bytes" count is present exactly when the scan
stopped strictly before `size`, in which case it equals `size` minus the
offset at which the scan stopped (the start offset plus the consumed widths). -/
theorem c2_field_cap_and_remainder (data : Nat → Nat) (size : Nat) (fs : List Field)
    (more : Option Nat) (h : PrintContent data size = Content.fields fs more) :
    fs.length ≤ PKT_DBG_MAX_FIELDS ∧
    more = if fieldsEnd (startPos data size) fs < size
      then some (size - fieldsEnd (startPos data size) fs) else none := by
  by_cases h1 : size ≤ 1
  · rw [PrintContent, if_pos h1] at h
    exact absurd h (by simp)
  · by_cases h2 : size ≤ startPos data size
    · rw [PrintContent, if_neg h1, if_pos h2] at h
      exact absurd h (by simp)
    · simp only [PrintContent, if_neg h1, if_neg h2, Content.fields.injEq] at h
      obtain ⟨hfs, hmore⟩ := h
      subst hfs
      have hsp : startPos data size ≤ size := le_of_lt (lt_of_not_le h2)
      obtain ⟨hch, hend, hle, hlen⟩ :=
        scanFields_spec data size PKT_DBG_MAX_FIELDS (startPos data size) hsp
      refine ⟨hlen, ?_⟩
      rw [← hmore, hend]

/-- C3: with `size ≥ 3`, a little-endian 16-bit value at offsets 1–2 equal to
`size` makes field scanning start at offset 3; any other buffer starts at
offset 1; and whenever the computed start offset reaches `size` the
disassembler renders the "(header only)" marker (which carries no field
records). -/
theorem c3_dynamic_length_heuristic (data : Nat → Nat) (size : Nat) :
    (3 ≤ size → le16 data 1 = size → startPos data size = 3) ∧
    (¬(3 ≤ size ∧ le16 data 1 = size) → startPos data size = 1) ∧
    (2 ≤ size → size ≤ startPos data size → PrintContent data size = Content.headerOnly) := by
  refine ⟨fun h3 hle => ?_, fun hn => ?_, fun h2 hge => ?_⟩
  · rw [startPos, if_pos ⟨h3, hle⟩]
  · rw [startPos, if_neg hn]
  · rw [PrintContent, if_neg (by omega), if_pos hge]

/-- C5: the buffer `[h, 'A', 'B', 'C', 0]` of length 5 disassembles to exactly
one string field of run length 3 at offset 1 with value "ABC" (width 4: the
run plus its consumed terminating null, so nothing remains), for every header
byte `h`; and in the buffer `[h, 'A', 'B', 0]` of length 4 the variable-string
candidate rejects without advancing (`tryVarString = none`) and classification
falls through to the numeric candidates (a `WORD` field at the same offset 1,
then a byte field). -/
theorem c5_variable_string_acceptance :
    ∀ h : Nat,
      PrintContent (fun i => [h, 65, 66, 67, 0].getD i 0) 5 =
        Content.fields [⟨1, 4, FKind.strVar [65, 66, 67] true⟩] none ∧
      tryVarString (fun i => [h, 65, 66, 0].getD i 0) 4 1 = none ∧
      PrintContent (fun i => [h, 65, 66, 0].getD i 0) 4 =
        Content.fields [⟨1, 2, FKind.wordF 16961⟩, ⟨3, 1, FKind.byteBoolF 0⟩] none := by
  intro h
  have e1 : PrintContent (fun i => [h, 65, 66, 67, 0].getD i 0) 5 =
      PrintContent (fun i => [0, 65, 66, 67, 0].getD i 0) 5 := by
    apply PrintContent_congr
    intro i h1 h2
    interval_cases i <;> rfl
  have e2 : tryVarString (fun i => [h, 65, 66, 0].getD i 0) 4 1 =
      tryVarString (fun i => [0, 65, 66, 0].getD i 0) 4 1 := by
    apply tryVarString_congr _ _ _ _ (by omega)
    intro i h1 h2
    interval_cases i <;> rfl
  have e3 : PrintContent (fun i => [h, 65, 66, 0].getD i 0) 4 =
      PrintContent (fun i => [0, 65, 66, 0].getD i 0) 4 := by
    apply PrintContent_congr
    intro i h1 h2
    interval_cases i <;> rfl
  refine ⟨?_, ?_, ?_⟩
  · rw [e1]
    decide
  · rw [e2]
    decide
  · rw [e3]
    decide

/-- C7: at an offset with at least 4 remaining bytes that reaches the float
candidate (both string candidates reject there), the 4 bytes are committed as
a float field exactly when their IEEE-754 single-precision value satisfies the
plausibility band: not NaN, magnitude at most `1e10`, nonzero, and magnitude
within `[0.0001f, 100000.0]` (`floatSpecOK`; the bounds are the exact values
of the code's float constants).  In particular the bit pattern `0x3F800000`
of 1.0 is accepted, and the bit pattern 0 of 0.0 is rejected as float, the
classification falling through past the integer candidates to the byte
fallback on a concrete all-zero body. -/
theorem c7_float_acceptance (data : Nat → Nat) (size pos : Nat)
    (h4 : pos + 4 ≤ size)
    (hv : tryVarString data size pos = none)
    (hf : tryFixedString data size pos = none) :
    ((classifyAt data size pos = ⟨pos, 4, FKind.floatF (le32 data pos)⟩) ↔
      floatSpecOK (decodeF32 (le32 data pos))) ∧
    IsReasonableFloatBits 1065353216 = true ∧
    IsReasonableFloatBits 0 = false ∧
    tryFloat (fun i => [3, 0, 0, 0, 0].getD i 0) 5 1 = none ∧
    classifyAt (fun i => [3, 0, 0, 0, 0].getD i 0) 5 1 = ⟨1, 1, FKind.byteBoolF 0⟩ := by
  refine ⟨?_, by decide, by decide, by decide, by decide⟩
  by_cases hr : IsReasonableFloatBits (le32 data pos) = true
  · have hflt : tryFloat data size pos = some ⟨pos, 4, FKind.floatF (le32 data pos)⟩ := by
      simp [tryFloat, h4, hr]
    constructor
    · intro _
      exact (IsReasonableFloatBits_iff _).mp hr
    · intro _
      simp [classifyAt, hv, hf, hflt]
  · have hflt : tryFloat data size pos = none := by
      simp [tryFloat, hr]
    constructor
    · intro hcl
      exfalso
      simp only [classifyAt, hv, hf, hflt] at hcl
      cases hl : tryLong data size pos with
      | some f =>
        simp only [hl] at hcl
        exact tryLong_kind data size pos f hl (le32 data pos) (by rw [hcl])
      | none =>
        simp only [hl] at hcl
        cases hs : tryShort data size pos with
        | some f =>
          simp only [hs] at hcl
          exact tryShort_kind data size pos f hs (le32 data pos) (by rw [hcl])
        | none =>
          simp only [hs] at hcl
          split_ifs at hcl <;> simp [Field.mk.injEq] at hcl
    · intro hspec
      exact absurd ((IsReasonableFloatBits_iff _).mpr hspec) hr

end PacketDebug

namespace PacketDebug

/-- C4, counterexample: the 16-byte region at offset 1 of this buffer is
printable-plus-null-padded with 3 printable bytes and 13 nulls (it matches the
canonical size 16, as well as 13), yet the disassembler does not classify it
as a fixed string of 16 bytes: the higher-priority variable-string candidate
commits "ABC" (4 bytes) first, and even `DetectFixedString` itself would
return the smaller canonical size 13, not 16. -/
theorem c4_counterexample :
    PrintContent (fun i => [2, 65, 66, 67, 0, 0, 0, 0, 0, 0, 0, 0, 0, 0, 0, 0, 0].getD i 0) 17 =
      Content.fields
        [⟨1, 4, FKind.strVar [65, 66, 67] true⟩, ⟨5, 1, FKind.byteBoolF 0⟩, ⟨6, 1, FKind.byteBoolF 0⟩, ⟨7, 1, FKind.byteBoolF 0⟩, ⟨8, 1, FKind.byteBoolF 0⟩, ⟨9, 1, FKind.byteBoolF 0⟩, ⟨10, 1, FKind.byteBoolF 0⟩, ⟨11, 1, FKind.byteBoolF 0⟩, ⟨12, 1, FKind.byteBoolF 0⟩, ⟨13, 1, FKind.byteBoolF 0⟩, ⟨14, 1, FKind.byteBoolF 0⟩, ⟨15, 1, FKind.byteBoolF 0⟩, ⟨16, 1, FKind.byteBoolF 0⟩] none ∧
    DetectFixedString (fun i => [2, 65, 66, 67, 0, 0, 0, 0, 0, 0, 0, 0, 0, 0, 0, 0, 0].getD i 0) 1 16 = 13 := by
  constructor
  · decide
  · decide

/-- C4, amended: a 16-byte printable-or-null region (valid scan, at least
`PKT_DBG_MIN_STR_LEN` printable bytes, at least one null, counts covering the
region) at the current offset is classified as a fixed string of exactly 16
bytes, provided the variable-string candidate rejects there (its printable run
is shorter than `PKT_DBG_MIN_STR_LEN`) and the smaller canonical size 13 does
not match first (fewer than `PKT_DBG_MIN_STR_LEN` printable bytes among the
first 13); without those two provisos the region may instead be committed as a
variable string or as a 13-byte fixed string, as the counterexample shows.
Sizes larger than 16 can never win because 16 is probed before them. -/
theorem c4_fixed_string_16_amended (data : Nat → Nat) (size pos p n : Nat)
    (hrem : pos + 16 ≤ size)
    (hscan : fixedScan data pos 16 = (p, n, true))
    (hp : PKT_DBG_MIN_STR_LEN ≤ p) (hn : 0 < n) (hpn : p + n = 16)
    (hrun : (runFrom data size pos 64).length < PKT_DBG_MIN_STR_LEN)
    (h13 : (fixedScan data pos 13).1 < PKT_DBG_MIN_STR_LEN) :
    classifyAt data size pos = ⟨pos, 16, FKind.strFixed 16 (strBeforeNull data pos 16)⟩ := by
  have hvar : tryVarString data size pos = none := by
    simp only [tryVarString]
    split_ifs with h1 h2 h3
    · exact absurd h2.1 (not_le.mpr hrun)
    · exact absurd h2.1 (not_le.mpr hrun)
    · rfl
    · rfl
  have hc13 : ¬((fixedScan data pos 13).2.2 = true ∧
      PKT_DBG_MIN_STR_LEN ≤ (fixedScan data pos 13).1 ∧
      0 < (fixedScan data pos 13).2.1 ∧
      (fixedScan data pos 13).1 + (fixedScan data pos 13).2.1 = 13) :=
    fun hc => absurd hc.2.1 (not_le.mpr h13)
  have hc16 : ((fixedScan data pos 16).2.2 = true ∧
      PKT_DBG_MIN_STR_LEN ≤ (fixedScan data pos 16).1 ∧
      0 < (fixedScan data pos 16).2.1 ∧
      (fixedScan data pos 16).1 + (fixedScan data pos 16).2.1 = 16) := by
    rw [hscan]
    exact ⟨rfl, hp, hn, hpn⟩
  have hdet : DetectFixedString data pos (size - pos) = 16 := by
    simp only [DetectFixedString, fixedSizes, detectFixedGo]
    rw [if_neg (show ¬ size - pos < 13 by omega), if_neg hc13,
      if_neg (show ¬ size - pos < 16 by omega), if_pos hc16]
  have hfix : tryFixedString data size pos =
      some ⟨pos, 16, FKind.strFixed 16 (strBeforeNull data pos 16)⟩ := by
    simp only [tryFixedString, hdet]
    rw [if_pos (show (0 : Nat) < 16 by omega)]
  simp only [classifyAt, hvar, hfix]

/-- C4, witness for the amended theorem: 13 nulls followed by "ABC" at offset
1 is a 16-byte region that satisfies all the provisos, and is classified as a
fixed string of exactly 16 bytes (displayed prefix empty: the region starts
with a null). -/
theorem c4_witness :
    classifyAt (fun i => [9, 0, 0, 0, 0, 0, 0, 0, 0, 0, 0, 0, 0, 0, 65, 66, 67].getD i 0) 17 1 = ⟨1, 16, FKind.strFixed 16 []⟩ :=
  c4_fixed_string_16_amended (fun i => [9, 0, 0, 0, 0, 0, 0, 0, 0, 0, 0, 0, 0, 0, 65, 66, 67].getD i 0) 17 1 3 13
    (by decide) (by decide) (by decide) (by decide) (by decide) (by decide) (by decide)

/-- C6, counterexample: the two bytes `[0x00, 0x83]` decode to the signed
16-bit value −32000, which lies in the claimed accepted signed range
`[−32000, −1]`, yet the code's strict test `sval > -32000` fails and the pair
is committed as an unsigned `WORD` 33536 instead of as a signed short. -/
theorem c6_counterexample :
    toSigned16 (le16 (fun i => [0, 131].getD i 0) 0) = -32000 ∧
    tryShort (fun i => [0, 131].getD i 0) 2 0 = some ⟨0, 2, FKind.wordF 33536⟩ := by
  constructor
  · decide
  · decide

/-- C6, amended: at an offset with at least 2 remaining bytes, the 16-bit
candidate accepts the signed interpretation exactly when it lies in
`[−31999, −1]` (the code's test `sval > -32000` is strict, so −32000 itself is
excluded), and otherwise accepts the unsigned interpretation as a `WORD`
exactly when it lies strictly between 0 and 0xFFF0; each acceptance consumes
2 bytes (the committed width). -/
theorem c6_short_word_amended (data : Nat → Nat) (size pos : Nat) (h2 : pos + 2 ≤ size) :
    (tryShort data size pos = some ⟨pos, 2, FKind.shortF (toSigned16 (le16 data pos))⟩ ↔
      toSigned16 (le16 data pos) < 0 ∧ -32000 < toSigned16 (le16 data pos)) ∧
    (tryShort data size pos = some ⟨pos, 2, FKind.wordF (le16 data pos)⟩ ↔
      (¬(toSigned16 (le16 data pos) < 0 ∧ -32000 < toSigned16 (le16 data pos)) ∧
        0 < le16 data pos ∧ le16 data pos < 65520)) := by
  simp only [tryShort, if_pos h2]
  constructor
  · split_ifs with hs hw
    · simp [hs]
    · simp [Field.mk.injEq, hs]
    · simp [hs]
  · split_ifs with hs hw
    · simp [Field.mk.injEq, hs]
    · simp [hs, hw]
    · simp [hs, hw]

/-- C6, witness: bytes `[0xEC, 0xFA]` decode to the signed value −1300, inside
the accepted range, and commit as a signed short of width 2. -/
theorem c6_witness :
    tryShort (fun i => [236, 250].getD i 0) 2 0 = some ⟨0, 2, FKind.shortF (-1300)⟩ :=
  (c6_short_word_amended (fun i => [236, 250].getD i 0) 2 0 (by decide)).1.mpr (by decide)

end PacketDebug

namespace PacketDebug

/-- C8, counterexample: with the logger initialized, `LogSend` on a null
buffer is not a complete no-op — the send counter is incremented before
`Log`'s argument check rejects the call (nothing is written and the time
reference is untouched, but the state changes). -/
theorem c8_counterexample :
    LogSend ⟨true, true, 0, 0, 0⟩ true (fun _ => 0) 5 100 = (⟨true, true, 0, 1, 0⟩, []) ∧
    (⟨true, true, 0, 1, 0⟩ : DebugState).nSend ≠ (⟨true, true, 0, 0, 0⟩ : DebugState).nSend := by
  constructor
  · rfl
  · decide

/-- C8, amended: on a null buffer or `size < 1`, `LogSend`/`LogRecv` write
nothing and leave the elapsed-time reference and the opposite direction's
counter unchanged, but the direction's own packet counter is still
incremented whenever the logger is initialized, because the increment runs
before `Log`'s argument guard. -/
theorem c8_noop_amended (st : DebugState) (dataNull : Bool) (data : Nat → Nat)
    (size : Int) (now : Nat) (h : dataNull = true ∨ size < 1) :
    (LogSend st dataNull data size now).2 = [] ∧
    (LogSend st dataNull data size now).1.lastTime = st.lastTime ∧
    (LogSend st dataNull data size now).1.nRecv = st.nRecv ∧
    (LogSend st dataNull data size now).1.nSend =
      (if st.init = true then st.nSend + 1 else st.nSend) ∧
    (LogRecv st dataNull data size now).2 = [] ∧
    (LogRecv st dataNull data size now).1.lastTime = st.lastTime ∧
    (LogRecv st dataNull data size now).1.nSend = st.nSend ∧
    (LogRecv st dataNull data size now).1.nRecv =
      (if st.init = true then st.nRecv + 1 else st.nRecv) := by
  have hLog : ∀ (st2 : DebugState) (dir : String),
      Log st2 dir dataNull data size now = (st2, []) := by
    intro st2 dir
    rw [Log, if_pos]
    rcases h with h1 | h2
    · exact Or.inl h1
    · exact Or.inr (Or.inl h2)
  unfold LogSend LogRecv
  split_ifs with hi <;> simp [hLog, hi]

/-- C8, witness for the amended theorem: an initialized logger on an empty
(`size = 0`) buffer writes nothing and bumps only the send counter. -/
theorem c8_witness :
    (LogSend ⟨true, true, 7, 2, 3⟩ false (fun _ => 0) 0 50).2 = [] ∧
    (LogSend ⟨true, true, 7, 2, 3⟩ false (fun _ => 0) 0 50).1.lastTime = 7 ∧
    (LogSend ⟨true, true, 7, 2, 3⟩ false (fun _ => 0) 0 50).1.nSend = 3 := by
  have h := c8_noop_amended ⟨true, true, 7, 2, 3⟩ false (fun _ => 0) 0 50 (by decide)
  exact ⟨h.1, by simpa using h.2.1, by simpa using h.2.2.2.1⟩

/-- C9: `Shutdown` writes the footer with the current totals and leaves both
packet counters unchanged (it only clears the initialized flag and closes the
sink); a subsequent `Initialize` re-activates logging without resetting the
counters, so the footer written by the next `Shutdown` still reports the
totals accumulated across all prior sessions. -/
theorem c9_shutdown_preserves_counters (st : DebugState) (h : st.init = true) (now2 : Nat) :
    (Shutdown st).2 = [Line.footer st.nSend st.nRecv] ∧
    (Shutdown st).1.nSend = st.nSend ∧
    (Shutdown st).1.nRecv = st.nRecv ∧
    (Shutdown st).1.init = false ∧
    (SessionInit (Shutdown st).1 true now2).1.init = true ∧
    (SessionInit (Shutdown st).1 true now2).1.nSend = st.nSend ∧
    (SessionInit (Shutdown st).1 true now2).1.nRecv = st.nRecv ∧
    (Shutdown (SessionInit (Shutdown st).1 true now2).1).2 =
      [Line.footer st.nSend st.nRecv] := by
  have hsd : Shutdown st =
      ({ st with init := false, fileOpen := false }, [Line.footer st.nSend st.nRecv]) := by
    rw [Shutdown, if_neg (by simp [h])]
  rw [hsd]
  simp [SessionInit, Shutdown]

/-- C9, witness: a session with 5 sent and 6 received packets keeps both
totals across a shutdown/re-initialize cycle. -/
theorem c9_witness :
    (Shutdown ⟨true, true, 4, 5, 6⟩).2 = [Line.footer 5 6] ∧
    (SessionInit (Shutdown ⟨true, true, 4, 5, 6⟩).1 true 9).1.nSend = 5 ∧
    (Shutdown (SessionInit (Shutdown ⟨true, true, 4, 5, 6⟩).1 true 9).1).2 =
      [Line.footer 5 6] := by
  have h := c9_shutdown_preserves_counters ⟨true, true, 4, 5, 6⟩ (by decide) 9
  exact ⟨by simpa using h.1, by simpa using h.2.2.2.2.2.1,
    by simpa using h.2.2.2.2.2.2.2⟩

/-- C10: whenever the variable-string candidate commits a field, the width
rendered in its `char[N]` label is the printable run length plus 1; when the
run was terminated by the end of the buffer (no null present), only
run-length bytes are consumed, so the rendered width exceeds the consumed
width by exactly one. -/
theorem c10_char_label_width (data : Nat → Nat) (size pos o w : Nat)
    (run : List Nat) (nullC : Bool)
    (h : tryVarString data size pos = some ⟨o, w, FKind.strVar run nullC⟩) :
    charLabel (FKind.strVar run nullC) = some (run.length + 1) ∧
    (nullC = true → w = run.length + 1) ∧
    (nullC = false → w = run.length ∧ size ≤ pos + run.length) := by
  simp only [tryVarString] at h
  split_ifs at h with h1 h2 h3
  · simp only [Option.some.injEq, Field.mk.injEq, FKind.strVar.injEq] at h
    obtain ⟨ho, hw, hs, hnc⟩ := h
    subst hs
    subst hnc
    exact ⟨rfl, fun _ => hw.symm, fun hcon => absurd hcon (by simp)⟩
  · simp only [Option.some.injEq, Field.mk.injEq, FKind.strVar.injEq] at h
    obtain ⟨ho, hw, hs, hnc⟩ := h
    subst hs
    subst hnc
    refine ⟨rfl, fun hcon => absurd hcon (by simp), fun _ => ?_⟩
    rcases h2.2 with hge | hnull
    · exact ⟨hw.symm, hge⟩
    · have hnotlt : ¬ (pos + (runFrom data size pos 64).length < size) :=
        fun hlt => h3 ⟨hlt, hnull⟩
      exact ⟨hw.symm, by omega⟩

/-- C10, witness: the buffer `[5, 'H', 'I', 'J']` ends inside the printable
run; the committed field consumes 3 bytes while its label reads `char[4]`. -/
theorem c10_witness :
    charLabel (FKind.strVar [72, 73, 74] false) = some 4 ∧
    ((3 : Nat) = ([72, 73, 74] : List Nat).length ∧
      (4 : Nat) ≤ 1 + ([72, 73, 74] : List Nat).length) := by
  have h := c10_char_label_width (fun i => [5, 72, 73, 74].getD i 0) 4 1 1 3 [72, 73, 74] false
    (by decide)
  refine ⟨h.1, ?_⟩
  have h3 := h.2.2 rfl
  simp only [List.length_cons, List.length_nil] at h3 ⊢
  exact ⟨h3.1, by omega⟩

/-- C1, witness: the buffer `[9, 'd', 'e', 'f', 0, 7]` yields two contiguous
in-bounds records (a 4-byte string at offset 1, a byte at offset 5). -/
theorem c1_witness :
    fieldsChain 1 [⟨1, 4, FKind.strVar [100, 101, 102] true⟩, ⟨5, 1, FKind.byteF 7⟩] = true ∧
    fieldsEnd 1 [⟨1, 4, FKind.strVar [100, 101, 102] true⟩, ⟨5, 1, FKind.byteF 7⟩] ≤ 6 := by
  have h := c1_field_records_invariant (fun i => [9, 100, 101, 102, 0, 7].getD i 0) 6
    [⟨1, 4, FKind.strVar [100, 101, 102] true⟩, ⟨5, 1, FKind.byteF 7⟩] none (by decide)
  have hs : startPos (fun i => [9, 100, 101, 102, 0, 7].getD i 0) 6 = 1 := by decide
  rw [hs] at h
  exact ⟨h.1, h.2.1⟩

/-- C2, witness: an all-zero buffer of length 19 hits the 16-field cap with 2
bytes left, and the reported remainder is exactly those 2 bytes. -/
theorem c2_witness :
    ([⟨1, 1, FKind.byteBoolF 0⟩, ⟨2, 1, FKind.byteBoolF 0⟩, ⟨3, 1, FKind.byteBoolF 0⟩, ⟨4, 1, FKind.byteBoolF 0⟩, ⟨5, 1, FKind.byteBoolF 0⟩, ⟨6, 1, FKind.byteBoolF 0⟩, ⟨7, 1, FKind.byteBoolF 0⟩, ⟨8, 1, FKind.byteBoolF 0⟩, ⟨9, 1, FKind.byteBoolF 0⟩, ⟨10, 1, FKind.byteBoolF 0⟩, ⟨11, 1, FKind.byteBoolF 0⟩, ⟨12, 1, FKind.byteBoolF 0⟩, ⟨13, 1, FKind.byteBoolF 0⟩, ⟨14, 1, FKind.byteBoolF 0⟩, ⟨15, 1, FKind.byteBoolF 0⟩, ⟨16, 1, FKind.byteBoolF 0⟩] : List Field).length ≤ PKT_DBG_MAX_FIELDS ∧
    (some 2 : Option Nat) =
      (if fieldsEnd 1 ([⟨1, 1, FKind.byteBoolF 0⟩, ⟨2, 1, FKind.byteBoolF 0⟩, ⟨3, 1, FKind.byteBoolF 0⟩, ⟨4, 1, FKind.byteBoolF 0⟩, ⟨5, 1, FKind.byteBoolF 0⟩, ⟨6, 1, FKind.byteBoolF 0⟩, ⟨7, 1, FKind.byteBoolF 0⟩, ⟨8, 1, FKind.byteBoolF 0⟩, ⟨9, 1, FKind.byteBoolF 0⟩, ⟨10, 1, FKind.byteBoolF 0⟩, ⟨11, 1, FKind.byteBoolF 0⟩, ⟨12, 1, FKind.byteBoolF 0⟩, ⟨13, 1, FKind.byteBoolF 0⟩, ⟨14, 1, FKind.byteBoolF 0⟩, ⟨15, 1, FKind.byteBoolF 0⟩, ⟨16, 1, FKind.byteBoolF 0⟩] : List Field) < 19
       then some (19 - fieldsEnd 1 ([⟨1, 1, FKind.byteBoolF 0⟩, ⟨2, 1, FKind.byteBoolF 0⟩, ⟨3, 1, FKind.byteBoolF 0⟩, ⟨4, 1, FKind.byteBoolF 0⟩, ⟨5, 1, FKind.byteBoolF 0⟩, ⟨6, 1, FKind.byteBoolF 0⟩, ⟨7, 1, FKind.byteBoolF 0⟩, ⟨8, 1, FKind.byteBoolF 0⟩, ⟨9, 1, FKind.byteBoolF 0⟩, ⟨10, 1, FKind.byteBoolF 0⟩, ⟨11, 1, FKind.byteBoolF 0⟩, ⟨12, 1, FKind.byteBoolF 0⟩, ⟨13, 1, FKind.byteBoolF 0⟩, ⟨14, 1, FKind.byteBoolF 0⟩, ⟨15, 1, FKind.byteBoolF 0⟩, ⟨16, 1, FKind.byteBoolF 0⟩] : List Field)) else none) := by
  have h := c2_field_cap_and_remainder (fun _ => 0) 19 [⟨1, 1, FKind.byteBoolF 0⟩, ⟨2, 1, FKind.byteBoolF 0⟩, ⟨3, 1, FKind.byteBoolF 0⟩, ⟨4, 1, FKind.byteBoolF 0⟩, ⟨5, 1, FKind.byteBoolF 0⟩, ⟨6, 1, FKind.byteBoolF 0⟩, ⟨7, 1, FKind.byteBoolF 0⟩, ⟨8, 1, FKind.byteBoolF 0⟩, ⟨9, 1, FKind.byteBoolF 0⟩, ⟨10, 1, FKind.byteBoolF 0⟩, ⟨11, 1, FKind.byteBoolF 0⟩, ⟨12, 1, FKind.byteBoolF 0⟩, ⟨13, 1, FKind.byteBoolF 0⟩, ⟨14, 1, FKind.byteBoolF 0⟩, ⟨15, 1, FKind.byteBoolF 0⟩, ⟨16, 1, FKind.byteBoolF 0⟩] (some 2) (by decide)
  have hs : startPos (fun _ => (0 : Nat)) 19 = 1 := by decide
  rw [hs] at h
  exact h

/-- C3, witness: `[1, 5, 0, 9, 9]` declares its own length 5 and scans from
offset 3; `[1, 9, 9]` does not and scans from offset 1; `[1, 3, 0]` declares
length 3, the start offset reaches the end, and only "(header only)" is
rendered. -/
theorem c3_witness :
    startPos (fun i => [1, 5, 0, 9, 9].getD i 0) 5 = 3 ∧
    startPos (fun i => [1, 9, 9].getD i 0) 3 = 1 ∧
    PrintContent (fun i => [1, 3, 0].getD i 0) 3 = Content.headerOnly :=
  ⟨(c3_dynamic_length_heuristic (fun i => [1, 5, 0, 9, 9].getD i 0) 5).1 (by decide) (by decide),
   (c3_dynamic_length_heuristic (fun i => [1, 9, 9].getD i 0) 3).2.1 (by decide),
   (c3_dynamic_length_heuristic (fun i => [1, 3, 0].getD i 0) 3).2.2 (by decide) (by decide)⟩

/-- C7, witness: the bytes `[0x00, 0x00, 0x80, 0x3F]` at offset 1 (the bit
pattern of 1.0) reach the float candidate and are committed as a float
field. -/
theorem c7_witness :
    classifyAt (fun i => [8, 0, 0, 128, 63].getD i 0) 5 1 =
      ⟨1, 4, FKind.floatF (le32 (fun i => [8, 0, 0, 128, 63].getD i 0) 1)⟩ :=
  ((c7_float_acceptance (fun i => [8, 0, 0, 128, 63].getD i 0) 5 1 (by decide) (by decide)
      (by decide)).1).mpr
    ((IsReasonableFloatBits_iff (le32 (fun i => [8, 0, 0, 128, 63].getD i 0) 1)).mp (by decide))

end PacketDebug
